import Mathlib

/-!
# OnvifDiscover: a shallow embedding of `main.go`

Go strings and byte slices are modelled as lists of natural numbers (one number per
byte).  Every function below is translated from `main.go`; library calls
(`regexp`, `strings`, `net.IP.String`, `crypto/rand`) are modelled by their documented
behaviour on bytes.
-/

set_option maxRecDepth 100000

namespace OnvifDiscover

/-- A Go `string` / `[]byte`: a sequence of bytes. -/
abbrev Bytes := List Nat

/-- The bytes of an ASCII literal of the source. -/
def ascii (s : String) : Bytes := s.toList.map Char.toNat

/-- The constant `symbols` of `main.go`, line 18. -/
def symbols : Bytes :=
  ascii "0123456789abcdefghijklmnopqrstuvwxyzABCDEFGHIJKLMNOPQRSTUVWXYZ-_"

/-! ## `FindTagValue` -/

/-- The regular expression `[:<]tag>([^<]+)` tried at the very start of `s`: one byte that is
`:` (58) or `<` (60), the literal bytes of `tag`, the byte `>` (62), then the greedy group
`[^<]+`, which takes the longest run of bytes other than `<` and needs at least one.
The result is the text of the group.  (`tag` is spliced into the pattern unescaped; the
model is for tags made of ordinary characters, as `XAddrs` is.) -/
def matchAt (tag : Bytes) (s : Bytes) : Option Bytes :=
  match s with
  | [] => none
  | c :: rest =>
    if (c == 58 || c == 60) && (tag ++ [62]).isPrefixOf rest then
      let g := (rest.drop (tag.length + 1)).takeWhile (fun x => x != 60)
      if g.isEmpty then none else some g
    else none

/-- The call `re.FindSubmatch(b)`: the leftmost position at which the expression matches;
`none` when it matches nowhere. -/
def findSubmatch (tag : Bytes) : Bytes → Option Bytes
  | [] => none
  | c :: cs =>
    match matchAt tag (c :: cs) with
    | some g => some g
    | none => findSubmatch tag cs

/-- The function `FindTagValue` of `main.go`, lines 20-27. -/
def FindTagValue (b : Bytes) (tag : Bytes) : Bytes :=
  match findSubmatch tag b with
  | none => []
  | some g => g

/-! ## `RandString` and `UUID` -/

/-- The loop `for i := byte(0); i < size; i++ { b[i] = symbols[b[i]%base] }` of `RandString`.
The counter is a byte, so the increment wraps at 256.  `none` stands for a run-time panic
(an index out of range, a division by zero) or for fuel running out. -/
def RandString.loop (size base : Nat) : Nat → Nat → Bytes → Option Bytes
  | 0, _, _ => none
  | fuel + 1, i, b =>
    if i < size then
      match b[i]? with
      | none => none
      | some x =>
        if base = 0 then none
        else
          match symbols[x % base]? with
          | none => none
          | some v => RandString.loop size base fuel ((i + 1) % 256) (b.set i v)
    else some b

/-- The function `RandString` of `main.go`, lines 29-41.  `r` is what `rand.Read` wrote into
the freshly made slice `b` of `size` bytes (a failing `rand.Read` panics before anything
else happens; see `Env.random`).  The byte counter takes at most 256 values, hence the
fuel. -/
def RandString (size base : Nat) (r : Bytes) : Option Bytes :=
  if base = 0 then some r
  else RandString.loop size base 257 0 r

/-- A Go slice expression `s[lo:hi]`; it panics (`none`) unless `lo ≤ hi ≤ len(s)`. -/
def slice (s : Bytes) (lo hi : Nat) : Option Bytes :=
  if lo ≤ hi ∧ hi ≤ s.length then some ((s.take hi).drop lo) else none

/-- The function `UUID` of `main.go`, lines 44-47; `r` is the 32 bytes delivered by the
random source. -/
def UUID (r : Bytes) : Option Bytes :=
  match RandString 32 16 r with
  | none => none
  | some s =>
    match slice s 0 8, slice s 8 12, slice s 12 16, slice s 16 20, slice s 20 s.length with
    | some g1, some g2, some g3, some g4, some g5 =>
      some (g1 ++ [45] ++ g2 ++ [45] ++ g3 ++ [45] ++ g4 ++ [45] ++ g5)
    | _, _, _, _, _ => none

/-! ## The probe message -/

/-- The text of the probe message before the identifier (`main.go`, lines 85-89). -/
def probeHead : Bytes :=
  ascii "<?xml version=\"1.0\" ?>\n" ++
  ascii "<s:Envelope xmlns:s=\"http://www.w3.org/2003/05/soap-envelope\">\n" ++
  ascii "\t<s:Header xmlns:a=\"http://schemas.xmlsoap.org/ws/2004/08/addressing\">\n" ++
  ascii "\t\t<a:Action>http://schemas.xmlsoap.org/ws/2005/04/discovery/Probe</a:Action>\n" ++
  ascii "\t\t<a:MessageID>urn:uuid:"

/-- The text of the probe message after the identifier (`main.go`, lines 89-98). -/
def probeTail : Bytes :=
  ascii "</a:MessageID>\n" ++
  ascii "\t\t<a:To>urn:schemas-xmlsoap-org:ws:2005:04/discovery</a:To>\n" ++
  ascii "\t</s:Header>\n" ++
  ascii "\t<s:Body>\n" ++
  ascii "\t\t<d:Probe xmlns:d=\"http://schemas.xmlsoap.org/ws/2005/04/discovery\">\n" ++
  ascii "\t\t\t<d:Types />\n" ++
  ascii "\t\t\t<d:Scopes />\n" ++
  ascii "\t\t</d:Probe>\n" ++
  ascii "\t</s:Body>\n" ++
  ascii "</s:Envelope>"

/-- The value of `msg` in `DiscoveryStreamingURLs` when `UUID()` returned `id`. -/
def probeMessage (id : Bytes) : Bytes := probeHead ++ id ++ probeTail

/-! ## The collection loop -/

/-- An IPv4 address as the four octets of `net.IP`. -/
structure IP where
  o1 : Nat
  o2 : Nat
  o3 : Nat
  o4 : Nat
  deriving DecidableEq, Repr

/-- Decimal text of one octet, as `net.IP.String` prints it (no leading zeros). -/
def ubtoa (v : Nat) : Bytes :=
  if v < 10 then [v + 48]
  else if v < 100 then [v / 10 + 48, v % 10 + 48]
  else [v / 100 + 48, (v / 10) % 10 + 48, v % 10 + 48]

/-- The library call `respAddr.IP.String()` on an IPv4 address: dotted decimal. -/
def IP.String (ip : IP) : Bytes :=
  ubtoa ip.o1 ++ [46] ++ ubtoa ip.o2 ++ [46] ++ ubtoa ip.o3 ++ [46] ++ ubtoa ip.o4

/-- One successful `conn.ReadFromUDP(buffer)`: `response` is `buffer[:n]`, `ip` is
`respAddr.IP`. -/
structure Datagram where
  response : Bytes
  ip : IP
  deriving DecidableEq, Repr

/-- The error that ends the reads: the deadline (a timeout), or anything else. -/
inductive ReadEnd where
  | timeout
  | failure
  deriving DecidableEq, Repr

/-- The errors `DiscoveryStreamingURLs` returns, one per `return nil, ...` statement. -/
inductive Error where
  | interfaceUnknown
  | multicastBindFailed
  | deadlineFailed
  | sendFailed
  | readFailed
  deriving DecidableEq, Repr

/-- The pair `([]string, error)` that `DiscoveryStreamingURLs` returns. -/
structure Result where
  urls : List Bytes
  err : Option Error
  deriving DecidableEq, Repr

/-- The library call `strings.Contains(s, substr)`. -/
def contains : Bytes → Bytes → Bool
  | [], substr => substr.isEmpty
  | c :: cs, substr => substr.isPrefixOf (c :: cs) || contains cs substr

/-- The library call `strings.HasPrefix(s, prefix)`. -/
def hasPrefix (s pre : Bytes) : Bool := pre.isPrefixOf s

/-- The `for` loop of `DiscoveryStreamingURLs` (`main.go`, lines 108-139) together with the
final `return`.  The socket has one absolute read deadline, so the reads are finitely many
datagrams followed by an error, `last`; `urls` is the variable of that name. -/
def collect (last : ReadEnd) : List Datagram → List Bytes → Result
  | [], urls =>
    match last with
    | ReadEnd.timeout => ⟨urls, none⟩
    | ReadEnd.failure => ⟨[], some Error.readFailed⟩
  | d :: ds, urls =>
    if !contains d.response (ascii "onvif") then collect last ds urls
    else
      let url := FindTagValue d.response (ascii "XAddrs")
      if url.isEmpty then collect last ds urls
      else if hasPrefix url (ascii "http://0.0.0.0") then
        collect last ds (urls ++ [ascii "http://" ++ d.ip.String ++ url.drop 14])
      else collect last ds (urls ++ [url])

/-- What the operating system and the network do during one call: whether each set-up step
succeeds, the 32 bytes `rand.Read` delivers (`none` when it fails, which makes `RandString`
panic), and the reads. -/
structure Env where
  interfaceFound : Bool
  bindOk : Bool
  deadlineOk : Bool
  random : Option Bytes
  sendOk : Bool
  datagrams : List Datagram
  last : ReadEnd

/-- The function `DiscoveryStreamingURLs` of `main.go`, lines 59-140; `none` is a panic.
The message is built before it is sent, so a failing random source panics before the send. -/
def DiscoveryStreamingURLs (env : Env) : Option Result :=
  if !env.interfaceFound then some ⟨[], some Error.interfaceUnknown⟩
  else if !env.bindOk then some ⟨[], some Error.multicastBindFailed⟩
  else if !env.deadlineOk then some ⟨[], some Error.deadlineFailed⟩
  else
    match env.random.bind UUID with
    | none => none
    | some id =>
      let _msg := probeMessage id
      if !env.sendOk then some ⟨[], some Error.sendFailed⟩
      else some (collect env.last env.datagrams [])

/-! ## Vocabulary of the specification -/

/-- An `XAddrs` opening is found at offset `i` of `b`: the bytes `:XAddrs>` or `<XAddrs>`
stand there. -/
def tagAt (b : Bytes) (i : Nat) : Prop :=
  ascii ":XAddrs>" <+: b.drop i ∨ ascii "<XAddrs>" <+: b.drop i

instance (b : Bytes) (i : Nat) : Decidable (tagAt b i) := by
  unfold tagAt; infer_instance

/-- The maximal run of bytes other than `<` that follows the `>` of the 8-byte opening at
offset `i`. -/
def textAfter (b : Bytes) (i : Nat) : Bytes :=
  (b.drop (i + 8)).takeWhile (fun x => x != 60)

/-- An opening `XAddrs` tag: `<XAddrs`, or `<p:XAddrs` for a namespace prefix `p`, then the
attribute text `attr`, then `>`. -/
def openTag (ns : Option Bytes) (attr : Bytes) : Bytes :=
  match ns with
  | none => ascii "<XAddrs" ++ attr ++ ascii ">"
  | some p => ascii "<" ++ p ++ ascii ":XAddrs" ++ attr ++ ascii ">"

/-- The closing `XAddrs` tag for the same prefix. -/
def closeTag (ns : Option Bytes) : Bytes :=
  match ns with
  | none => ascii "</XAddrs>"
  | some p => ascii "</" ++ p ++ ascii ":XAddrs>"

/-- A response with two `XAddrs` elements, the first of them empty. -/
def twoElements : Bytes :=
  ascii "<d:XAddrs></d:XAddrs><d:XAddrs>http://x/</d:XAddrs>"

/-- A response whose only `XAddrs` element has an attribute on its opening tag. -/
def withAttribute : Bytes :=
  ascii "<d:XAddrs a=\"b\">http://x/</d:XAddrs>"

/-- The same element followed by a line break and a further element. -/
def withAttributeThenMore : Bytes :=
  ascii "<d:XAddrs a=\"b\">http://x/</d:XAddrs>\n<d:MetadataVersion>1</d:MetadataVersion>"

/-- A datagram is accepted: its payload contains the bytes `onvif` and the extracted
`XAddrs` value is not empty. -/
def accepted (d : Datagram) : Bool :=
  decide (ascii "onvif" <:+: d.response ∧ FindTagValue d.response (ascii "XAddrs") ≠ [])

/-- The address an accepted datagram stands for: its extracted value, with a leading
`http://0.0.0.0` (14 bytes) replaced by `http://` and the sender's address. -/
def address (d : Datagram) : Bytes :=
  if ascii "http://0.0.0.0" <+: FindTagValue d.response (ascii "XAddrs") then
    ascii "http://" ++ d.ip.String ++ (FindTagValue d.response (ascii "XAddrs")).drop 14
  else FindTagValue d.response (ascii "XAddrs")

/-- The addresses of the accepted datagrams of `ds`, in the order of `ds`. -/
def addresses (ds : List Datagram) : List Bytes :=
  (ds.filter accepted).map address

/-- Scenario S2: one well-formed answer. -/
def answerS2 : Datagram :=
  ⟨ascii "<d:Types>tds:Device</d:Types><d:Scopes>onvif://www.onvif.org/type/video</d:Scopes><d:XAddrs>http://192.0.2.10/onvif/device_service</d:XAddrs>",
    ⟨192, 0, 2, 10⟩⟩

/-- Scenario S3: an answer from 192.0.2.20 that announces the wildcard host. -/
def answerS3 : Datagram :=
  ⟨ascii "onvif <d:XAddrs>http://0.0.0.0:8080/svc</d:XAddrs>", ⟨192, 0, 2, 20⟩⟩

/-- Scenario S4: an answer with an `XAddrs` element and no `onvif`. -/
def answerS4 : Datagram :=
  ⟨ascii "<s:Envelope><s:Body><XAddrs>http://x/</XAddrs></s:Body></s:Envelope>", ⟨192, 0, 2, 30⟩⟩

/-- An answer that spells the word in capitals only. -/
def answerCapitals : Datagram :=
  ⟨ascii "ONVIF <d:XAddrs>http://192.0.2.31/ONVIF/device_service</d:XAddrs>", ⟨192, 0, 2, 31⟩⟩

/-- An answer that arrives with the source address 0.0.0.0 and announces the wildcard
host. -/
def answerFromZero : Datagram :=
  ⟨ascii "onvif <XAddrs>http://0.0.0.0/x</XAddrs>", ⟨0, 0, 0, 0⟩⟩

/-- Scenario S5, first responder. -/
def answerA : Datagram :=
  ⟨ascii "onvif <d:XAddrs>http://192.0.2.41/a</d:XAddrs>", ⟨192, 0, 2, 41⟩⟩

/-- Scenario S5, second responder. -/
def answerB : Datagram :=
  ⟨ascii "onvif <d:XAddrs>http://192.0.2.42/b</d:XAddrs>", ⟨192, 0, 2, 42⟩⟩

/-- A run of the whole function: everything succeeds, one answer arrives, and then a read
fails with an error that is not a timeout. -/
def failingRun : Env :=
  ⟨true, true, true, some (List.replicate 32 7), true, [answerA], ReadEnd.failure⟩

/-- A lowercase hexadecimal digit: `0`-`9` or `a`-`f`. -/
def lowerHex (c : Nat) : Bool :=
  (48 ≤ c && c ≤ 57) || (97 ≤ c && c ≤ 102)

/-- The 8-4-4-4-12 shape: 36 bytes, `-` (45) at offsets 8, 13, 18 and 23, a lowercase
hexadecimal digit at each of the 32 other offsets. -/
def UuidShape (s : Bytes) : Prop :=
  s.length = 36 ∧
  ∀ i, i < 36 →
    if i = 8 ∨ i = 13 ∨ i = 18 ∨ i = 23 then s[i]? = some 45
    else ∃ c, s[i]? = some c ∧ lowerHex c = true

/-- The identifier the comment on `UUID` shows. -/
def sampleId : Bytes := ascii "44302cbf-0d18-4feb-79b3-33b575263da3"

/-- The number of offsets of `s` at which `pat` stands. -/
def countOcc (pat : Bytes) : Bytes → Nat
  | [] => 0
  | c :: cs => (if pat <+: c :: cs then 1 else 0) + countOcc pat cs


/-! ## Properties of `FindTagValue` -/

theorem matchAt_XAddrs (s : Bytes) :
    matchAt (ascii "XAddrs") s =
      if tagAt s 0 ∧ textAfter s 0 ≠ [] then some (textAfter s 0) else none := by
  cases s with
  | nil => simp [matchAt, tagAt, ascii]
  | cons c rest =>
    have e1 : ascii ":XAddrs>" = 58 :: (ascii "XAddrs" ++ [62]) := by decide
    have e2 : ascii "<XAddrs>" = 60 :: (ascii "XAddrs" ++ [62]) := by decide
    have e3 : (ascii "XAddrs").length + 1 = 7 := by decide
    have e4 : textAfter (c :: rest) 0 = (rest.drop 7).takeWhile (fun x => x != 60) := by
      simp [textAfter]
    simp only [matchAt, tagAt, List.drop_zero, e1, e2, e3, e4, List.cons_prefix_cons,
      Bool.and_eq_true, Bool.or_eq_true, beq_iff_eq, List.isPrefixOf_iff_prefix,
      List.isEmpty_eq_true]
    by_cases hp : ascii "XAddrs" ++ [62] <+: rest
    · by_cases hc : c = 58 ∨ c = 60
      · have hc2 : (58 = c ∨ 60 = c) := by omega
        by_cases hg : (rest.drop 7).takeWhile (fun x => x != 60) = []
        · simp [hp, hc, hg]
        · simp [hp, hc, hg, hc2]
      · have hc2 : ¬ (58 = c ∨ 60 = c) := by omega
        have h58 : ¬ 58 = c := by omega
        have h60 : ¬ 60 = c := by omega
        simp [hc, h58, h60]
    · simp [hp]

theorem findSubmatch_first (tag : Bytes) :
    ∀ (b : Bytes) (i : Nat) (g : Bytes), matchAt tag (b.drop i) = some g →
      (∀ j, j < i → matchAt tag (b.drop j) = none) → findSubmatch tag b = some g := by
  intro b
  induction b with
  | nil => intro i g h _; simp [matchAt] at h
  | cons c cs ih =>
    intro i g h hn
    cases i with
    | zero =>
      simp only [List.drop_zero] at h
      simp [findSubmatch, h]
    | succ k =>
      have h0 := hn 0 (Nat.succ_pos k)
      simp only [List.drop_zero] at h0
      simp only [findSubmatch, h0]
      apply ih k g
      · simpa using h
      · intro j hj
        have := hn (j + 1) (by omega)
        simpa using this

theorem findSubmatch_none (tag : Bytes) :
    ∀ (b : Bytes), (∀ i, matchAt tag (b.drop i) = none) → findSubmatch tag b = none := by
  intro b
  induction b with
  | nil => intro _; rfl
  | cons c cs ih =>
    intro hn
    have h0 := hn 0
    simp only [List.drop_zero] at h0
    simp only [findSubmatch, h0]
    apply ih
    intro i
    have := hn (i + 1)
    simpa using this

theorem matchAt_drop (b : Bytes) (i : Nat) :
    matchAt (ascii "XAddrs") (b.drop i) =
      if tagAt b i ∧ textAfter b i ≠ [] then some (textAfter b i) else none := by
  have h1 : tagAt (b.drop i) 0 ↔ tagAt b i := by simp [tagAt]
  have h2 : textAfter (b.drop i) 0 = textAfter b i := by
    simp [textAfter, List.drop_drop, Nat.add_comm]
  rw [matchAt_XAddrs, h2]
  simp only [h1]


theorem findSubmatch_cons_none (tag : Bytes) (c : Nat) (cs : Bytes)
    (h : matchAt tag (c :: cs) = none) : findSubmatch tag (c :: cs) = findSubmatch tag cs := by
  rw [findSubmatch, h]

theorem findSubmatch_cons_some (tag : Bytes) (c : Nat) (cs g : Bytes)
    (h : matchAt tag (c :: cs) = some g) : findSubmatch tag (c :: cs) = some g := by
  rw [findSubmatch, h]

theorem prefix_append_cons (y : Nat) (ys : Bytes) :
    ∀ (xs pat : Bytes), xs ≠ [] → pat <+: xs ++ y :: ys → pat <+: xs ∨ y ∈ pat.tail := by
  intro xs
  induction xs with
  | nil => intro pat h; exact absurd rfl h
  | cons x xs ih =>
    intro pat _ h
    cases pat with
    | nil => exact Or.inl (List.nil_prefix)
    | cons q qs =>
      rw [List.cons_append, List.cons_prefix_cons] at h
      obtain ⟨hq, hqs⟩ := h
      by_cases hx : xs = []
      · subst hx
        cases qs with
        | nil => left; rw [hq]
        | cons q2 qs2 =>
          rw [List.nil_append, List.cons_prefix_cons] at hqs
          right; simp [hqs.1]
      · rcases ih qs hx hqs with h1 | h1
        · left; rw [List.cons_prefix_cons]; exact ⟨hq, h1⟩
        · right; exact List.mem_of_mem_tail h1

theorem not_tagAt_append (pre ys : Bytes) (d : Nat) (hd : d = 58 ∨ d = 60)
    (h0 : ¬ tagAt pre 0) (hne : pre ≠ []) : ¬ tagAt (pre ++ d :: ys) 0 := by
  intro h
  simp only [tagAt, List.drop_zero] at h h0
  have t1 : d ∉ (ascii ":XAddrs>").tail := by
    rcases hd with rfl | rfl <;> decide
  have t2 : d ∉ (ascii "<XAddrs>").tail := by
    rcases hd with rfl | rfl <;> decide
  rcases h with h | h
  · rcases prefix_append_cons d ys pre _ hne h with h1 | h1
    · exact h0 (Or.inl h1)
    · exact t1 h1
  · rcases prefix_append_cons d ys pre _ hne h with h1 | h1
    · exact h0 (Or.inr h1)
    · exact t2 h1

theorem findSubmatch_skip_before (ys : Bytes) (d : Nat) (hd : d = 58 ∨ d = 60) :
    ∀ (pre : Bytes), (∀ i, ¬ tagAt pre i) →
      findSubmatch (ascii "XAddrs") (pre ++ d :: ys) = findSubmatch (ascii "XAddrs") (d :: ys) := by
  intro pre
  induction pre with
  | nil => intro _; rfl
  | cons c cs ih =>
    intro h
    have hm : matchAt (ascii "XAddrs") (c :: (cs ++ d :: ys)) = none := by
      rw [matchAt_XAddrs]
      have := not_tagAt_append (c :: cs) ys d hd (h 0) (by simp)
      simp only [List.cons_append] at this
      simp [this]
    rw [List.cons_append, findSubmatch_cons_none _ _ _ hm]
    apply ih
    intro i hi
    apply h (i + 1)
    simpa [tagAt] using hi

theorem findSubmatch_skip_run (tag ys : Bytes) :
    ∀ (xs : Bytes), (∀ x ∈ xs, x ≠ 58 ∧ x ≠ 60) →
      findSubmatch tag (xs ++ ys) = findSubmatch tag ys := by
  intro xs
  induction xs with
  | nil => intro _; rfl
  | cons x xs ih =>
    intro h
    have hx := h x (by simp)
    have hm : matchAt tag (x :: (xs ++ ys)) = none := by
      simp [matchAt, hx.1, hx.2]
    rw [List.cons_append, findSubmatch_cons_none _ _ _ hm]
    exact ih (fun z hz => h z (by simp [hz]))

theorem matchAt_open (d : Nat) (hd : d = 58 ∨ d = 60) (c rest : Bytes) (hc : c ≠ [])
    (hlt : 60 ∉ c) :
    matchAt (ascii "XAddrs") (d :: (ascii "XAddrs>" ++ (c ++ 60 :: rest))) = some c := by
  have e1 : ascii "XAddrs>" = ascii "XAddrs" ++ [62] := by decide
  have e3 : (ascii "XAddrs").length + 1 = (ascii "XAddrs" ++ [62]).length := by decide
  have hp : (ascii "XAddrs" ++ [62]) <+: (ascii "XAddrs" ++ [62]) ++ (c ++ 60 :: rest) :=
    List.prefix_append _ _
  have htw : List.takeWhile (fun x => x != 60) (c ++ 60 :: rest) = c := by
    rw [List.takeWhile_append_of_pos]
    · simp
    · intro a ha
      have : a ≠ 60 := fun h => hlt (h ▸ ha)
      simpa using this
  have hdb : (d == 58 || d == 60) = true := by rcases hd with rfl | rfl <;> decide
  simp only [matchAt, e1, e3, hdb, List.isPrefixOf_iff_prefix, hp, List.drop_left, htw,
    Bool.and_self, if_true]
  cases c with
  | nil => exact absurd rfl hc
  | cons a as => simp

/-- Claim C1, amended: `FindTagValue(b, "XAddrs")` returns the empty string when no opening
`:XAddrs>` or `<XAddrs>` in `b` is followed by a byte other than `<`; otherwise it returns
the maximal run of bytes other than `<` after the first opening that is followed by such
a byte. -/
theorem FindTagValue_first_nonempty (b : Bytes) :
    ((∀ i, tagAt b i → textAfter b i = []) → FindTagValue b (ascii "XAddrs") = []) ∧
    (∀ i, tagAt b i → textAfter b i ≠ [] →
      (∀ j, j < i → tagAt b j → textAfter b j = []) →
      FindTagValue b (ascii "XAddrs") = textAfter b i) := by
  constructor
  · intro h
    have : findSubmatch (ascii "XAddrs") b = none := by
      apply findSubmatch_none
      intro i
      rw [matchAt_drop]
      have := h i
      simp only [ite_eq_right_iff, reduceCtorEq, imp_false, not_and, not_not]
      exact this
    simp [FindTagValue, this]
  · intro i ht hne hbefore
    have : findSubmatch (ascii "XAddrs") b = some (textAfter b i) := by
      apply findSubmatch_first _ b i
      · rw [matchAt_drop]; simp [ht, hne]
      · intro j hj
        rw [matchAt_drop]
        have := hbefore j hj
        simp only [ite_eq_right_iff, reduceCtorEq, imp_false, not_and, not_not]
        exact this
    simp [FindTagValue, this]

/-- Witness for C1: in `twoElements` the opening at offset 23 is the first one followed by
text, and that text is returned. -/
theorem FindTagValue_first_nonempty_witness :
    tagAt twoElements 23 ∧ textAfter twoElements 23 ≠ [] ∧
    (∀ j, j < 23 → tagAt twoElements j → textAfter twoElements j = []) ∧
    FindTagValue twoElements (ascii "XAddrs") = textAfter twoElements 23 :=
  ⟨by decide, by decide, by decide,
    (FindTagValue_first_nonempty twoElements).2 23 (by decide) (by decide) (by decide)⟩

/-- Counterexample to C1 as stated: the first `:XAddrs>` of `twoElements` is at offset 2 and
is immediately followed by `<`, yet the result is the text of a later element, not the
empty string. -/
theorem FindTagValue_skips_empty_element :
    tagAt twoElements 2 ∧ (∀ j, j < 2 → ¬ tagAt twoElements j) ∧
    textAfter twoElements 2 = [] ∧
    FindTagValue twoElements (ascii "XAddrs") = ascii "http://x/" ∧
    FindTagValue twoElements (ascii "XAddrs") ≠ textAfter twoElements 2 := by
  decide

theorem not_name_prefix (p rest : Bytes) (hp : ∀ x ∈ p, x ≠ 58 ∧ x ≠ 60 ∧ x ≠ 62) :
    ¬ (ascii "XAddrs" ++ [62]) <+: p ++ 58 :: rest := by
  intro h
  by_cases hne : p = []
  · subst hne
    revert h
    simp [ascii, List.cons_prefix_cons]
  · rcases prefix_append_cons 58 rest p _ hne h with h1 | h1
    · have h62 : 62 ∈ p := h1.subset (by decide)
      exact (hp 62 h62).2.2 rfl
    · revert h1; decide

/-- Claim C9, amended: for every namespace prefix (or none) and every non-empty text `c`
without `<`, `FindTagValue` with tag `XAddrs` returns `c` on a response whose first `XAddrs`
element is the opening tag WITHOUT attribute text, then `c`, then the closing tag. -/
theorem FindTagValue_prefix_indifferent (pre post c : Bytes) (ns : Option Bytes)
    (hpre : ∀ i, ¬ tagAt pre i)
    (hns : ∀ p, ns = some p → ∀ x ∈ p, x ≠ 58 ∧ x ≠ 60 ∧ x ≠ 62)
    (hc : c ≠ []) (hlt : 60 ∉ c) :
    FindTagValue (pre ++ openTag ns [] ++ c ++ closeTag ns ++ post) (ascii "XAddrs") = c := by
  cases ns with
  | none =>
    have e : pre ++ openTag none [] ++ c ++ closeTag none ++ post =
        pre ++ 60 :: (ascii "XAddrs>" ++ (c ++ 60 :: (ascii "/XAddrs>" ++ post))) := by
      simp [openTag, closeTag, ascii]
    rw [e, FindTagValue, findSubmatch_skip_before _ 60 (Or.inr rfl) pre hpre,
      findSubmatch_cons_some _ _ _ c (matchAt_open 60 (Or.inr rfl) c _ hc hlt)]
  | some p =>
    have hp := hns p rfl
    have e : pre ++ openTag (some p) [] ++ c ++ closeTag (some p) ++ post =
        pre ++ 60 :: (p ++ 58 :: (ascii "XAddrs>" ++
          (c ++ 60 :: (47 :: (p ++ (ascii ":XAddrs>" ++ post)))))) := by
      simp [openTag, closeTag, ascii]
    have hm : matchAt (ascii "XAddrs") (60 :: (p ++ 58 :: (ascii "XAddrs>" ++
          (c ++ 60 :: (47 :: (p ++ (ascii ":XAddrs>" ++ post))))))) = none := by
      have := not_name_prefix p (ascii "XAddrs>" ++
          (c ++ 60 :: (47 :: (p ++ (ascii ":XAddrs>" ++ post))))) hp
      simp [matchAt, this]
    rw [e, FindTagValue, findSubmatch_skip_before _ 60 (Or.inr rfl) pre hpre,
      findSubmatch_cons_none _ _ _ hm,
      findSubmatch_skip_run _ _ p (fun x hx => ⟨(hp x hx).1, (hp x hx).2.1⟩),
      findSubmatch_cons_some _ _ _ c (matchAt_open 58 (Or.inl rfl) c _ hc hlt)]

/-- Witness for C9: prefix `tds`, text `http://x/`, some text before and after. -/
theorem FindTagValue_prefix_indifferent_witness :
    (∀ i, ¬ tagAt (ascii "onvif ") i) ∧ ascii "http://x/" ≠ [] ∧ 60 ∉ ascii "http://x/" ∧
    FindTagValue (ascii "onvif " ++ openTag (some (ascii "tds")) [] ++ ascii "http://x/" ++
      closeTag (some (ascii "tds")) ++ ascii "\n") (ascii "XAddrs") = ascii "http://x/" :=
  ⟨by intro i; simp [tagAt, ascii]; rcases i with _ | _ | _ | _ | _ | _ | _ | i <;> simp,
    by decide, by decide,
    FindTagValue_prefix_indifferent (ascii "onvif ") (ascii "\n") (ascii "http://x/")
      (some (ascii "tds"))
      (by intro i; simp [tagAt, ascii]; rcases i with _ | _ | _ | _ | _ | _ | _ | i <;> simp)
      (by intro p hp; cases hp; decide) (by decide) (by decide)⟩

/-- Counterexample to C9 as stated: with the attribute text ` a="b"` on the opening tag the
element text `http://x/` is not returned; the result is empty, or is the text that follows
the closing tag. -/
theorem FindTagValue_attribute_not_matched :
    [] ++ openTag (some (ascii "d")) (ascii " a=\"b\"") ++ ascii "http://x/" ++
        closeTag (some (ascii "d")) ++ [] = withAttribute ∧
    ascii "http://x/" ≠ [] ∧ 60 ∉ ascii "http://x/" ∧
    FindTagValue withAttribute (ascii "XAddrs") = [] ∧
    FindTagValue withAttributeThenMore (ascii "XAddrs") = ascii "\n" := by
  decide

/-! ## Properties of the collection loop -/

theorem contains_spec (sub : Bytes) :
    ∀ (s : Bytes), contains s sub = true ↔ sub <:+: s := by
  intro s
  induction s with
  | nil => simp [contains, List.infix_nil]
  | cons c cs ih =>
    rw [contains, Bool.or_eq_true, ih, List.isPrefixOf_iff_prefix, List.infix_cons_iff]

theorem collect_cons_accepted (last : ReadEnd) (d : Datagram) (ds : List Datagram)
    (urls : List Bytes) (h : accepted d = true) :
    collect last (d :: ds) urls = collect last ds (urls ++ [address d]) := by
  simp only [accepted, decide_eq_true_eq] at h
  have h1 : contains d.response (ascii "onvif") = true := (contains_spec _ _).2 h.1
  by_cases hp : ascii "http://0.0.0.0" <+: FindTagValue d.response (ascii "XAddrs")
  · simp [collect, h1, h.2, hasPrefix, address, hp]
  · simp [collect, h1, h.2, hasPrefix, address, hp]

theorem collect_cons_rejected (last : ReadEnd) (d : Datagram) (ds : List Datagram)
    (urls : List Bytes) (h : accepted d = false) :
    collect last (d :: ds) urls = collect last ds urls := by
  simp only [accepted, decide_eq_false_iff_not, not_and, not_not] at h
  by_cases h1 : contains d.response (ascii "onvif") = true
  · have h2 := h ((contains_spec _ _).1 h1)
    simp [collect, h1, h2]
  · simp [collect, h1]

theorem collect_timeout (ds : List Datagram) :
    ∀ (urls : List Bytes), collect ReadEnd.timeout ds urls = ⟨urls ++ addresses ds, none⟩ := by
  induction ds with
  | nil => intro urls; simp [collect, addresses]
  | cons d ds ih =>
    intro urls
    cases h : accepted d with
    | true =>
      rw [collect_cons_accepted _ _ _ _ h, ih]
      simp [addresses, List.filter_cons, h]
    | false =>
      rw [collect_cons_rejected _ _ _ _ h, ih]
      simp [addresses, List.filter_cons, h]

theorem collect_failure (ds : List Datagram) :
    ∀ (urls : List Bytes),
      collect ReadEnd.failure ds urls = ⟨[], some Error.readFailed⟩ := by
  induction ds with
  | nil => intro urls; simp [collect]
  | cons d ds ih =>
    intro urls
    cases h : accepted d with
    | true => rw [collect_cons_accepted _ _ _ _ h, ih]
    | false => rw [collect_cons_rejected _ _ _ _ h, ih]

theorem collect_urls_subset (last : ReadEnd) (ds : List Datagram) (u : Bytes)
    (h : u ∈ (collect last ds []).urls) : u ∈ addresses ds := by
  cases last with
  | timeout => simpa [collect_timeout] using h
  | failure => simp [collect_failure] at h

theorem addresses_append (ds1 ds2 : List Datagram) :
    addresses (ds1 ++ ds2) = addresses ds1 ++ addresses ds2 := by
  simp [addresses]

theorem ubtoa_head_zero (v : Nat) (t rest : Bytes) (h : 48 :: t <+: ubtoa v ++ rest) :
    v = 0 := by
  unfold ubtoa at h
  split_ifs at h with h1 h2
  · rw [List.singleton_append, List.cons_prefix_cons] at h
    omega
  · rw [List.cons_append, List.cons_prefix_cons] at h
    omega
  · rw [List.cons_append, List.cons_prefix_cons] at h
    omega

theorem ip_text_zero (ip : IP) (rest : Bytes)
    (h : ascii "0.0.0.0" <+: ip.String ++ rest) : ip = ⟨0, 0, 0, 0⟩ := by
  obtain ⟨a, b, c, d⟩ := ip
  have e : ascii "0.0.0.0" = [48, 46, 48, 46, 48, 46, 48] := by decide
  have z : ubtoa 0 = [48] := by decide
  simp only [IP.String, e, List.append_assoc] at h
  have ha := ubtoa_head_zero a _ _ h
  subst ha
  simp only [z, List.singleton_append, List.cons_prefix_cons, true_and] at h
  have hb := ubtoa_head_zero b _ _ h
  subst hb
  simp only [z, List.singleton_append, List.cons_prefix_cons, true_and] at h
  have hc := ubtoa_head_zero c _ _ h
  subst hc
  simp only [z, List.singleton_append, List.cons_prefix_cons, true_and] at h
  have hd := ubtoa_head_zero d _ _ h
  subst hd
  rfl

theorem address_no_wildcard (d : Datagram) (hip : d.ip ≠ ⟨0, 0, 0, 0⟩) :
    ¬ ascii "http://0.0.0.0" <+: address d := by
  intro h
  unfold address at h
  split_ifs at h with hp
  · have e : ascii "http://0.0.0.0" = ascii "http://" ++ ascii "0.0.0.0" := by decide
    rw [e, List.append_assoc, List.prefix_append_right_inj] at h
    exact hip (ip_text_zero _ _ h)
  · exact hp h

theorem DiscoveryStreamingURLs_cases (env : Env) (r : Result)
    (h : DiscoveryStreamingURLs env = some r) :
    (r.urls = [] ∧ r.err ≠ none) ∨ r = collect env.last env.datagrams [] := by
  unfold DiscoveryStreamingURLs at h
  cases hu : env.random.bind UUID with
  | none =>
    simp only [hu] at h
    split_ifs at h <;> (cases h; simp)
  | some id =>
    simp only [hu] at h
    split_ifs at h
    · cases h; simp
    · cases h; simp
    · cases h; simp
    · cases h; simp
    · cases h; right; rfl

/-- Claim C2 (ONVIF gate): every address the collection loop returns is the address of a
received datagram whose payload contains the bytes `onvif`; when no received payload contains
them the returned list is empty, as for a payload with `<XAddrs>http://x/</XAddrs>` only or
one that spells the word `ONVIF`. -/
theorem collect_onvif_gate (last : ReadEnd) (ds : List Datagram) :
    (∀ u, u ∈ (collect last ds []).urls →
      ∃ d, d ∈ ds ∧ ascii "onvif" <:+: d.response ∧ u = address d) ∧
    ((∀ d, d ∈ ds → ¬ ascii "onvif" <:+: d.response) → (collect last ds []).urls = []) ∧
    (FindTagValue answerS4.response (ascii "XAddrs") = ascii "http://x/" ∧
      (collect last [answerS4] []).urls = []) ∧
    (FindTagValue answerCapitals.response (ascii "XAddrs") =
        ascii "http://192.0.2.31/ONVIF/device_service" ∧
      (collect last [answerCapitals] []).urls = []) := by
  have key : ∀ u, u ∈ (collect last ds []).urls →
      ∃ d, d ∈ ds ∧ ascii "onvif" <:+: d.response ∧ u = address d := by
    intro u hu
    have := collect_urls_subset last ds u hu
    simp only [addresses, List.mem_map, List.mem_filter, accepted, decide_eq_true_eq] at this
    obtain ⟨d, ⟨hd, hon, _⟩, rfl⟩ := this
    exact ⟨d, hd, hon, rfl⟩
  refine ⟨key, ?_, ⟨by decide, by cases last <;> decide⟩, ⟨by decide, by cases last <;> decide⟩⟩
  intro hno
  apply List.eq_nil_iff_forall_not_mem.2
  intro u hu
  obtain ⟨d, hd, hon, _⟩ := key u hu
  exact hno d hd hon

/-- Witness for C2: the one address returned for scenario S2 comes from a payload that
contains `onvif`. -/
theorem collect_onvif_gate_witness :
    ascii "http://192.0.2.10/onvif/device_service" ∈
      (collect ReadEnd.timeout [answerS2, answerS4] []).urls ∧
    ∃ d, d ∈ [answerS2, answerS4] ∧ ascii "onvif" <:+: d.response ∧
      ascii "http://192.0.2.10/onvif/device_service" = address d :=
  ⟨by decide,
    (collect_onvif_gate ReadEnd.timeout [answerS2, answerS4]).1 _ (by decide)⟩

/-- Claim C3 (wildcard rewrite): an accepted datagram whose extracted value `u` begins with
the 14 bytes `http://0.0.0.0` contributes `http://`, then the text of its sender address, then
`u` without its first 14 bytes; any other accepted datagram contributes `u` unchanged.
Sender 192.0.2.20 with `http://0.0.0.0:8080/svc` gives `http://192.0.2.20:8080/svc`. -/
theorem collect_wildcard_rewrite (ds1 ds2 : List Datagram) (d : Datagram) (u : Bytes)
    (hu : u = FindTagValue d.response (ascii "XAddrs"))
    (hon : ascii "onvif" <:+: d.response) (hne : u ≠ []) :
    (ascii "http://0.0.0.0" <+: u →
      (collect ReadEnd.timeout (ds1 ++ d :: ds2) []).urls =
        (collect ReadEnd.timeout ds1 []).urls ++
          (ascii "http://" ++ d.ip.String ++ u.drop 14) ::
            (collect ReadEnd.timeout ds2 []).urls) ∧
    (¬ ascii "http://0.0.0.0" <+: u →
      (collect ReadEnd.timeout (ds1 ++ d :: ds2) []).urls =
        (collect ReadEnd.timeout ds1 []).urls ++ u :: (collect ReadEnd.timeout ds2 []).urls) ∧
    (ascii "http://0.0.0.0").length = 14 ∧
    answerS3.ip.String = ascii "192.0.2.20" ∧
    FindTagValue answerS3.response (ascii "XAddrs") = ascii "http://0.0.0.0:8080/svc" ∧
    (collect ReadEnd.timeout [answerS3] []).urls = [ascii "http://192.0.2.20:8080/svc"] := by
  have hacc : accepted d = true := by
    simp only [accepted, decide_eq_true_eq]
    exact ⟨hon, hu ▸ hne⟩
  have hsplit : (collect ReadEnd.timeout (ds1 ++ d :: ds2) []).urls =
      (collect ReadEnd.timeout ds1 []).urls ++ address d ::
        (collect ReadEnd.timeout ds2 []).urls := by
    simp [collect_timeout, addresses, List.filter_cons, hacc]
  refine ⟨?_, ?_, by decide, by decide, by decide, by decide⟩
  · intro hp
    rw [hsplit, address, ← hu, if_pos hp]
  · intro hp
    rw [hsplit, address, ← hu, if_neg hp]

/-- Witness for C3: scenario S3 placed between two other answers. -/
theorem collect_wildcard_rewrite_witness :
    ascii "onvif" <:+: answerS3.response ∧
    ascii "http://0.0.0.0:8080/svc" ≠ [] ∧
    ascii "http://0.0.0.0" <+: ascii "http://0.0.0.0:8080/svc" ∧
    (collect ReadEnd.timeout ([answerA] ++ answerS3 :: [answerB]) []).urls =
      (collect ReadEnd.timeout [answerA] []).urls ++
        (ascii "http://" ++ answerS3.ip.String ++ (ascii "http://0.0.0.0:8080/svc").drop 14) ::
          (collect ReadEnd.timeout [answerB] []).urls :=
  ⟨by decide, by decide, by decide,
    (collect_wildcard_rewrite [answerA] [answerB] answerS3 (ascii "http://0.0.0.0:8080/svc")
      (by decide) (by decide) (by decide)).1 (by decide)⟩

/-- Claim C4, amended: when no received datagram has the sender address 0.0.0.0, no address
in the returned list begins with `http://0.0.0.0`. -/
theorem collect_no_wildcard (last : ReadEnd) (ds : List Datagram)
    (hip : ∀ d, d ∈ ds → d.ip ≠ ⟨0, 0, 0, 0⟩) (u : Bytes)
    (hu : u ∈ (collect last ds []).urls) : ¬ ascii "http://0.0.0.0" <+: u := by
  have := collect_urls_subset last ds u hu
  simp only [addresses, List.mem_map, List.mem_filter] at this
  obtain ⟨d, ⟨hd, _⟩, rfl⟩ := this
  exact address_no_wildcard d (hip d hd)

/-- Witness for C4: scenario S3, whose sender is 192.0.2.20. -/
theorem collect_no_wildcard_witness :
    (∀ d, d ∈ [answerS3] → d.ip ≠ ⟨0, 0, 0, 0⟩) ∧
    ascii "http://192.0.2.20:8080/svc" ∈ (collect ReadEnd.timeout [answerS3] []).urls ∧
    ¬ ascii "http://0.0.0.0" <+: ascii "http://192.0.2.20:8080/svc" :=
  ⟨by decide, by decide,
    collect_no_wildcard ReadEnd.timeout [answerS3] (by decide) _ (by decide)⟩

/-- Counterexample to C4 as stated: a datagram whose sender address is 0.0.0.0 and whose
extracted value is `http://0.0.0.0/x` puts an address that begins with `http://0.0.0.0` into
the returned list. -/
theorem collect_wildcard_from_zero_sender :
    answerFromZero.ip.String = ascii "0.0.0.0" ∧
    (collect ReadEnd.timeout [answerFromZero] []).urls = [ascii "http://0.0.0.0/x"] ∧
    ascii "http://0.0.0.0" <+: ascii "http://0.0.0.0/x" := by
  decide

/-- Claim C5 (arrival order, duplicates kept): the list returned at the deadline holds one
entry for each accepted datagram (payload contains `onvif`, extracted value not empty) and
none for any other, in the order received; the result for `ds1 ++ ds2` is the result for
`ds1` followed by the result for `ds2`. -/
theorem collect_arrival_order (ds ds1 ds2 : List Datagram) :
    (collect ReadEnd.timeout ds []).urls = (ds.filter accepted).map address ∧
    (collect ReadEnd.timeout ds []).err = none ∧
    (collect ReadEnd.timeout ds []).urls.length = ds.countP accepted ∧
    (collect ReadEnd.timeout (ds1 ++ ds2) []).urls =
      (collect ReadEnd.timeout ds1 []).urls ++ (collect ReadEnd.timeout ds2 []).urls ∧
    collect ReadEnd.timeout [answerS2] [] =
      ⟨[ascii "http://192.0.2.10/onvif/device_service"], none⟩ ∧
    collect ReadEnd.timeout [answerA, answerB] [] =
      ⟨[ascii "http://192.0.2.41/a", ascii "http://192.0.2.42/b"], none⟩ ∧
    collect ReadEnd.timeout [answerA, answerS4, answerA] [] =
      ⟨[ascii "http://192.0.2.41/a", ascii "http://192.0.2.41/a"], none⟩ := by
  refine ⟨?_, ?_, ?_, ?_, by decide, by decide, by decide⟩
  · simp [collect_timeout, addresses]
  · simp [collect_timeout]
  · simp [collect_timeout, addresses, List.countP_eq_length_filter]
  · simp [collect_timeout, addresses_append]

/-- Claim C6 (how the loop ends): when the reads end with a timeout the function returns the
addresses accumulated so far and no error; when they end with any other error it returns an
error and an empty list, whatever had been accumulated. -/
theorem collect_termination_results (ds : List Datagram) (urls : List Bytes) (env : Env)
    (r : Result) :
    collect ReadEnd.timeout ds urls = ⟨urls ++ addresses ds, none⟩ ∧
    collect ReadEnd.timeout [] urls = ⟨urls, none⟩ ∧
    collect ReadEnd.failure ds urls = ⟨[], some Error.readFailed⟩ ∧
    (DiscoveryStreamingURLs env = some r →
      (env.last = ReadEnd.failure → r.urls = [] ∧ r.err ≠ none) ∧
      (r.err = none → env.last = ReadEnd.timeout ∧ r.urls = addresses env.datagrams)) := by
  refine ⟨collect_timeout ds urls, rfl, collect_failure ds urls, ?_⟩
  intro h
  rcases DiscoveryStreamingURLs_cases env r h with h1 | h1
  · exact ⟨fun _ => h1, fun h2 => absurd h2 h1.2⟩
  · subst h1
    cases hl : env.last with
    | timeout => simp [collect_timeout]
    | failure => simp [collect_failure]

/-- Witness for C6: a run in which one address has been accepted when a read fails with an
error that is not a timeout. -/
theorem collect_termination_results_witness :
    DiscoveryStreamingURLs failingRun = some ⟨[], some Error.readFailed⟩ ∧
    failingRun.last = ReadEnd.failure ∧
    (collect ReadEnd.timeout failingRun.datagrams []).urls = [ascii "http://192.0.2.41/a"] ∧
    ([] : List Bytes) = [] ∧ some Error.readFailed ≠ none :=
  ⟨by decide, by decide, by decide,
    ((collect_termination_results [] [] failingRun ⟨[], some Error.readFailed⟩).2.2.2
      (by decide)).1 (by decide)⟩

/-! ## Properties of `RandString` and `UUID` -/

theorem symbols_length : symbols.length = 64 := by decide

theorem loop_spec (size base : Nat) (hb0 : 0 < base) (hb : base ≤ 64) (hs : size < 256) :
    ∀ (todo done : Bytes) (fuel : Nat), done.length + todo.length = size →
      todo.length < fuel →
      RandString.loop size base fuel done.length (done ++ todo) =
        some (done ++ todo.map (fun x => symbols.getD (x % base) 0)) := by
  intro todo
  induction todo with
  | nil =>
    intro done fuel hlen hf
    cases fuel with
    | zero => simp at hf
    | succ f =>
      simp only [List.length_nil, Nat.add_zero] at hlen
      simp [RandString.loop, hlen]
  | cons x t ih =>
    intro done fuel hlen hf
    cases fuel with
    | zero => simp at hf
    | succ f =>
      simp only [List.length_cons] at hlen hf
      have hi : done.length < size := by omega
      have hx : x % base < symbols.length := by
        rw [symbols_length]
        have := Nat.mod_lt x hb0
        omega
      have hget : (done ++ x :: t)[done.length]? = some x := by
        rw [List.getElem?_append_right (Nat.le_refl _)]
        simp
      have hsym : symbols[x % base]? = some (symbols.getD (x % base) 0) := by
        rw [List.getD_eq_getElem?_getD, List.getElem?_eq_getElem hx]
        rfl
      have hnext : (done.length + 1) % 256 =
          (done ++ [symbols.getD (x % base) 0]).length := by
        rw [List.length_append, List.length_singleton]
        exact Nat.mod_eq_of_lt (by omega)
      have hset : (done ++ x :: t).set done.length (symbols.getD (x % base) 0) =
          (done ++ [symbols.getD (x % base) 0]) ++ t := by simp
      have hb' : ¬ base = 0 := by omega
      rw [RandString.loop, if_pos hi, hget]
      simp only [hb', if_false, hsym]
      rw [hnext, hset, ih _ f (by simp; omega) (by omega)]
      simp

theorem RandString_eq_map (size base : Nat) (r : Bytes) (hs : size < 256) (hb0 : 0 < base)
    (hb : base ≤ 64) (hr : r.length = size) :
    RandString size base r = some (r.map (fun x => symbols.getD (x % base) 0)) := by
  have := loop_spec size base hb0 hb hs r [] 257 (by simpa using hr) (by omega)
  have hb' : ¬ base = 0 := by omega
  simpa [RandString, hb'] using this

/-- Claim C10 (alphabet and index safety of `RandString`): for a byte `size`, a base from 1
to 64 and `size` random bytes `r`, every index `r[i] % base` is inside the 64-byte table
`symbols`, the loop ends and returns a string of length `size` all of whose bytes are among
the first `base` bytes of `symbols`; with base 0 the random bytes come back unchanged. -/
theorem RandString_alphabet (size base : Nat) (r : Bytes) (hs : size < 256)
    (hb1 : 1 ≤ base) (hb : base ≤ 64) (hr : r.length = size) :
    symbols.length = 64 ∧
    (∀ x, x ∈ r → x % base < symbols.length) ∧
    (∃ s, RandString size base r = some s ∧ s.length = size ∧
      ∀ c, c ∈ s → c ∈ symbols.take base) ∧
    RandString size 0 r = some r := by
  have hx : ∀ x : Nat, x % base < symbols.length := by
    intro x
    rw [symbols_length]
    have := Nat.mod_lt x hb1
    omega
  refine ⟨symbols_length, fun x _ => hx x, ?_, by simp [RandString]⟩
  refine ⟨_, RandString_eq_map size base r hs hb1 hb hr, by simpa using hr, ?_⟩
  intro c hc
  simp only [List.mem_map] at hc
  obtain ⟨x, _, rfl⟩ := hc
  have hlt : x % base < (symbols.take base).length := by
    rw [List.length_take, symbols_length]
    have := Nat.mod_lt x hb1
    omega
  have e : symbols.getD (x % base) 0 = (symbols.take base)[x % base] := by
    rw [List.getD_eq_getElem?_getD, List.getElem?_eq_getElem (hx x), List.getElem_take]
    rfl
  rw [e]
  exact List.getElem_mem _

/-- Witness for C10: four random bytes in base 16. -/
theorem RandString_alphabet_witness :
    4 < 256 ∧ 1 ≤ 16 ∧ 16 ≤ 64 ∧ [0, 31, 200, 255].length = 4 ∧
    RandString 4 16 [0, 31, 200, 255] = some (ascii "0f8f") ∧
    ∃ s, RandString 4 16 [0, 31, 200, 255] = some s ∧ s.length = 4 ∧
      ∀ c, c ∈ s → c ∈ symbols.take 16 :=
  ⟨by decide, by decide, by decide, by decide, by decide,
    (RandString_alphabet 4 16 [0, 31, 200, 255] (by decide) (by decide) (by decide)
      (by decide)).2.2.1⟩

theorem lowerHex_symbol (x : Nat) : lowerHex (symbols.getD (x % 16) 0) = true := by
  have h : x % 16 < 16 := Nat.mod_lt _ (by decide)
  generalize x % 16 = k at h
  interval_cases k <;> decide

theorem lowerHex_symbol_get (x : Nat) : lowerHex (symbols[x % 16]?.getD 0) = true := by
  have h := lowerHex_symbol x
  rwa [List.getD_eq_getElem?_getD] at h

theorem UUID_eq (r : Bytes) (hr : r.length = 32) :
    UUID r = some
      (((r.map (fun x => symbols.getD (x % 16) 0)).take 8) ++ [45] ++
        (((r.map (fun x => symbols.getD (x % 16) 0)).take 12).drop 8) ++ [45] ++
        (((r.map (fun x => symbols.getD (x % 16) 0)).take 16).drop 12) ++ [45] ++
        (((r.map (fun x => symbols.getD (x % 16) 0)).take 20).drop 16) ++ [45] ++
        ((r.map (fun x => symbols.getD (x % 16) 0)).drop 20)) := by
  have hm := RandString_eq_map 32 16 r (by decide) (by decide) (by decide) hr
  have ht : List.take 32 (r.map (fun x => symbols.getD (x % 16) 0)) =
      r.map (fun x => symbols.getD (x % 16) 0) :=
    List.take_of_length_le (by simp [hr])
  simp only [UUID, hm, slice, List.length_map, hr, ht]
  simp

/-- Claim C7 (identifier shape): for every 32 bytes from the random source `UUID()` returns
a string of length 36 with `-` at offsets 8, 13, 18 and 23 and a lowercase hexadecimal digit
at each of the other 32 offsets. -/
theorem UUID_shape (r : Bytes) (hr : r.length = 32) : ∃ s, UUID r = some s ∧ UuidShape s := by
  refine ⟨_, UUID_eq r hr, ?_⟩
  iterate 32 (rcases r with _ | ⟨_, r⟩; · simp at hr)
  have hnil : r = [] := by simpa using hr
  subst hnil
  refine ⟨by simp, ?_⟩
  intro i hi
  interval_cases i <;> simp [lowerHex_symbol_get]

/-- Witness for C7: the 32 random bytes 0, 1, ..., 31. -/
theorem UUID_shape_witness :
    (List.range 32).length = 32 ∧
    UUID (List.range 32) = some (ascii "01234567-89ab-cdef-0123-456789abcdef") ∧
    ∃ s, UUID (List.range 32) = some s ∧ UuidShape s :=
  ⟨by decide, by decide, UUID_shape (List.range 32) (by decide)⟩

/-! ## Properties of the probe message -/

theorem countOcc_skip_run (q : Nat) (qs ys : Bytes) :
    ∀ (xs : Bytes), (∀ x, x ∈ xs → x ≠ q) →
      countOcc (q :: qs) (xs ++ ys) = countOcc (q :: qs) ys := by
  intro xs
  induction xs with
  | nil => intro _; rfl
  | cons x xs ih =>
    intro h
    have hx : ¬ q = x := fun e => h x (by simp) e.symm
    have hp : ¬ (q :: qs) <+: x :: (xs ++ ys) := by
      rw [List.cons_prefix_cons]
      exact fun e => hx e.1
    rw [List.cons_append, countOcc, if_neg hp, Nat.zero_add]
    exact ih (fun z hz => h z (by simp [hz]))

theorem countOcc_append (pat ys : Bytes) :
    ∀ (xs : Bytes),
      (∀ i, i < xs.length → pat.length ≤ (xs.drop i).length ∨ ¬ xs.drop i <+: pat) →
      countOcc pat (xs ++ ys) = countOcc pat xs + countOcc pat ys := by
  intro xs
  induction xs with
  | nil => intro _; simp [countOcc]
  | cons c cs ih =>
    intro h
    have h0 := h 0 (by simp)
    simp only [List.drop_zero] at h0
    have hiff : pat <+: c :: (cs ++ ys) ↔ pat <+: c :: cs := by
      have hfull : c :: cs <+: c :: (cs ++ ys) := by
        rw [← List.cons_append]
        exact List.prefix_append _ _
      constructor
      · intro hp
        rcases h0 with hl | hn
        · exact List.prefix_of_prefix_length_le hp hfull hl
        · by_cases hl : pat.length ≤ (c :: cs).length
          · exact List.prefix_of_prefix_length_le hp hfull hl
          · exact absurd (List.prefix_of_prefix_length_le hfull hp (by omega)) hn
      · intro hp
        exact hp.trans hfull
    have htail : ∀ i, i < cs.length →
        pat.length ≤ (cs.drop i).length ∨ ¬ cs.drop i <+: pat := by
      intro i hi
      have := h (i + 1) (by simp; omega)
      simpa using this
    rw [List.cons_append, countOcc, countOcc, ih htail]
    simp only [hiff]
    omega

theorem UuidShape_no_lt (id : Bytes) (h : UuidShape id) : ∀ x, x ∈ id → x ≠ 60 := by
  intro x hx e
  subst e
  obtain ⟨i, hi, hget⟩ := List.getElem_of_mem hx
  have hi36 : i < 36 := by rw [← h.1]; exact hi
  have hs := h.2 i hi36
  have hq : id[i]? = some 60 := by rw [List.getElem?_eq_getElem hi, hget]
  rw [hq] at hs
  split_ifs at hs
  · simp at hs
  · obtain ⟨c, hc, hhex⟩ := hs
    simp only [Option.some.injEq] at hc
    subst hc
    revert hhex
    decide

theorem probeMessage_count (pat : Bytes) (q : Nat) (qs : Bytes) (hq : pat = 60 :: qs)
    (hsafe : ∀ i, i < probeHead.length →
      pat.length ≤ (probeHead.drop i).length ∨ ¬ probeHead.drop i <+: pat)
    (hcount : countOcc pat probeHead + countOcc pat probeTail = q)
    (id : Bytes) (h : UuidShape id) : countOcc pat (probeMessage id) = q := by
  rw [probeMessage, List.append_assoc, countOcc_append pat _ probeHead hsafe, hq,
    countOcc_skip_run 60 qs probeTail id (UuidShape_no_lt id h), ← hq]
  exact hcount

/-- Claim C8 (probe envelope): for every identifier `id` of the 8-4-4-4-12 shape the probe
message built around it has exactly one opening tag `<a:Action>`, one `<a:MessageID>`, one
`<a:To>` and one `<d:Probe`, and the text between `<a:MessageID>` and `</a:MessageID>` is
`urn:uuid:` followed by `id`. -/
theorem probeMessage_envelope (id : Bytes) (h : UuidShape id) :
    countOcc (ascii "<a:Action>") (probeMessage id) = 1 ∧
    countOcc (ascii "<a:MessageID>") (probeMessage id) = 1 ∧
    countOcc (ascii "<a:To>") (probeMessage id) = 1 ∧
    countOcc (ascii "<d:Probe") (probeMessage id) = 1 ∧
    (∃ before after, probeMessage id =
      before ++ ascii "<a:MessageID>" ++ (ascii "urn:uuid:" ++ id) ++
        ascii "</a:MessageID>" ++ after) ∧
    (∀ x, x ∈ ascii "urn:uuid:" ++ id → x ≠ 60) := by
  refine ⟨?_, ?_, ?_, ?_, ?_, ?_⟩
  · exact probeMessage_count _ 1 (ascii "a:Action>") (by decide) (by decide) (by decide) id h
  · exact probeMessage_count _ 1 (ascii "a:MessageID>") (by decide) (by decide) (by decide)
      id h
  · exact probeMessage_count _ 1 (ascii "a:To>") (by decide) (by decide) (by decide) id h
  · exact probeMessage_count _ 1 (ascii "d:Probe") (by decide) (by decide) (by decide) id h
  · refine ⟨probeHead.take 236, probeTail.drop 14, ?_⟩
    have e1 : probeHead = probeHead.take 236 ++ ascii "<a:MessageID>" ++ ascii "urn:uuid:" := by
      decide
    have e2 : probeTail = ascii "</a:MessageID>" ++ probeTail.drop 14 := by decide
    rw [probeMessage]
    nth_rewrite 1 [e1]
    nth_rewrite 1 [e2]
    simp only [List.append_assoc]
  · intro x hx
    rcases List.mem_append.1 hx with h1 | h1
    · intro e
      subst e
      revert h1
      decide
    · exact UuidShape_no_lt id h x h1

/-- Witness for C8: the identifier shown in the comment on `UUID`. -/
theorem probeMessage_envelope_witness :
    UuidShape sampleId ∧ countOcc (ascii "<a:MessageID>") (probeMessage sampleId) = 1 ∧
    FindTagValue (probeMessage sampleId) (ascii "MessageID") = ascii "urn:uuid:" ++ sampleId :=
  ⟨by unfold UuidShape; decide,
    (probeMessage_envelope sampleId (by unfold UuidShape; decide)).2.1, by decide⟩

end OnvifDiscover
